import Mathlib

/-!
Verification model of GTMultiTool, file `src/ui/tabs/tool_e.py` (class
`ToolETab`, chiefly the batch conversion pipeline in `run_tool`).

File and directory names are modelled as lists of characters (`Str`), so that
Python's `str.lower`, `str.endswith`, substring tests (`in`) and
`os.path.splitext` become executable Lean functions with the same semantics.
The filesystem effects of one batch run are modelled explicitly:

* temporary directories (`tempfile.mkdtemp` / `shutil.rmtree`) are tracked as a
  set of live identifiers drawn from a counter;
* output directories (`os.makedirs(..., exist_ok=True)`) are a list of created
  paths plus, per path, the list of entries it contains;
* `shutil.move` of a file into an output directory replaces any same-named
  entry there (the overwriting file-destination semantics of `os.rename` /
  `shutil.copy2`; the special `shutil.move` case where the destination path is
  itself an existing directory is not modelled);
* the behaviour of the external converter binaries, of the
  staging copy, and of the interactive-console dialog is not computable from
  the source and is supplied per artifact as an `Env` oracle record.
-/

/-- Character-list strings: Python `str` values (file names, log lines). -/
abbrev Str := List Char

/-- View a Lean string literal as a character list. -/
def str (s : String) : Str := s.data

/-- Python `s.lower()` (ASCII case folding, as `Char.toLower`). -/
def lowerStr (n : Str) : Str := n.map Char.toLower

/-- Python `name.lower().endswith(suf)` for a constant lowercase suffix. -/
def endsWithLower (suf : String) (n : Str) : Bool := decide (suf.data <:+ lowerStr n)

/-- Python `needle in hay` (substring containment). -/
def containsSub (needle : String) (hay : Str) : Bool := decide (needle.data <:+: hay)

/-- Python `os.path.splitext` on a bare file name (no path separators): split
at the last dot, except when every character before that dot is itself a dot
(CPython `genericpath._splitext`). -/
def splitExt (n : Str) : Str × Str :=
  match n.reverse.findIdx? (fun c => decide (c = '.')) with
  | none => (n, [])
  | some k =>
    let i := n.length - 1 - k
    if (n.take i).any (fun c => decide (c ≠ '.')) then (n.take i, n.drop i) else (n, [])

/-- `os.path.splitext(n)[0]`. -/
def splitExtBase (n : Str) : Str := (splitExt n).1

/-- `os.path.splitext(n)[1].lower()` (the form used at lines 703, 736, 819). -/
def extLower (n : Str) : Str := lowerStr (splitExt n).2

/-- Line 528: `src_file.lower().endswith(".gz")`. -/
def nameEndsGz (n : Str) : Bool := endsWithLower ".gz" n

/-- Line 758: `out_item.lower().endswith('.cdo')`. -/
def nameEndsCdo (n : Str) : Bool := endsWithLower ".cdo" n

/-- Night game-format extension test, `name.lower().endswith('.cno')`. -/
def nameEndsCno (n : Str) : Bool := endsWithLower ".cno" n

/-- Game-format model file: `.cdo` or `.cno` extension (GLOSSARY of the spec). -/
def gameFmt (n : Str) : Bool := nameEndsCdo n || nameEndsCno n

/-- The five tool buttons of `TOOL_ARGS` (lines 27-41). -/
inductive ToolName where
  | ConvertToEditable
  | ConvertToEditableSplit
  | ConvertModelsToGT2
  | DumpTexture
  | ConvertTexturesToGT2
deriving DecidableEq, Repr

/-- The single command-line argument of each tool (`TOOL_ARGS`, lines 27-38). -/
def toolArg : ToolName → Str
  | .ConvertToEditable => str "-oe"
  | .ConvertToEditableSplit => str "-oes"
  | .ConvertModelsToGT2 => str "-o2"
  | .DumpTexture => str "-oe"
  | .ConvertTexturesToGT2 => str "-o2"

/-- Line 405: `tool_name in TEXTURE_TOOL_ARGS`. -/
def isTextureTool : ToolName → Bool
  | .DumpTexture => true
  | .ConvertTexturesToGT2 => true
  | _ => false

/-- Line 423: `tool_name == "ConvertModelsToGT2"`. -/
def isConvertAllModels (t : ToolName) : Bool := decide (t = .ConvertModelsToGT2)

/-- Line 424: `tool_name == "ConvertTexturesToGT2"`. -/
def isConvertAllTextures (t : ToolName) : Bool := decide (t = .ConvertTexturesToGT2)

/-- Line 425: `is_convert_all = is_convert_all_models or is_convert_all_textures`. -/
def isConvertAll (t : ToolName) : Bool := isConvertAllModels t || isConvertAllTextures t

/-- Line 617: `timeout = 300 if tool_name == "DumpTexture" else 120 if is_convert_all else 60`. -/
def timeoutFor (t : ToolName) : Nat :=
  if t = .DumpTexture then 300 else if isConvertAll t then 120 else 60

/-- Modelled from the claim's words (C10): 300 seconds for DumpTexture, 120 for
the two to-game-format conversions, 60 for every other operation. -/
def specTimeoutForOperation : ToolName → Nat
  | .DumpTexture => 300
  | .ConvertModelsToGT2 => 120
  | .ConvertTexturesToGT2 => 120
  | _ => 60

/-- Lines 439-444: day-variant source extension for non-convert-all resolution. -/
def day_ext (t : ToolName) : Str :=
  if isTextureTool t && !isConvertAll t then str ".cdp" else str ".cdo"

/-- Lines 439-444: night-variant source extension for non-convert-all resolution. -/
def night_ext (t : ToolName) : Str :=
  if isTextureTool t && !isConvertAll t then str ".cnp" else str ".cno"

/-- A directory entry: a file or sub-directory name together with an abstract
content identifier (so that an overwriting move is observable). -/
structure Entry where
  name : Str
  isDir : Bool
  content : Nat
deriving DecidableEq, Repr

/-- The names of a directory listing (`os.listdir`). -/
def names (l : List Entry) : List Str := l.map Entry.name

/-- Lines 757-774, one snapshot item `out_item` of the night-variant
normalizer: if the name ends in `.cdo` and no `<base>.cno` exists in the
current directory state, duplicate the entry under the `.cno` name
(`shutil.copy2`), log the synthesis, count it as moved, and remove the
original `.cdo` entry if it still exists.  The accumulator is
(directory state, log lines, files moved). -/
def normStepFull (acc : List Entry × List Str × Nat) (out_item : Str) :
    List Entry × List Str × Nat :=
  let s := acc.1
  let logs := acc.2.1
  let moved := acc.2.2
  if nameEndsCdo out_item then
    let cno_name := splitExtBase out_item ++ str ".cno"
    if decide (cno_name ∈ names s) then acc
    else
      match s.find? (fun e => decide (e.name = out_item)) with
      | none => acc
      | some e =>
        let s1 := s ++ [{ e with name := cno_name }]
        let logs1 := logs ++ [str "  Saved: " ++ cno_name]
        if decide (out_item ∈ names s1) then
          (s1.filter (fun f => decide (f.name ≠ out_item)),
           logs1 ++ [str "  Removed: " ++ out_item], moved + 1)
        else (s1, logs1, moved + 1)
  else acc

/-- Lines 755-776: the Variant Normalizer for a Night model-to-game-format
conversion.  `for out_item in os.listdir(out_dir)` iterates over a snapshot of
the entry names taken before any modification. -/
def nightNormalizeFull (s : List Entry) : List Entry × List Str × Nat :=
  (names s).foldl normStepFull (s, [], 0)

/-- One element of `files_to_process` (line 417): `(src_file, is_night, carid,
file_type)`.  `src_file` is kept as its base name. -/
structure Item where
  src_file : Str
  is_night : Bool
  carid : Str
  file_type : Str
deriving DecidableEq, Repr

/-- Lines 182-199 / 446-448: `self.car_names.get(carid, {}).get("name", carid)`,
with the display-name table as an association list. -/
def carNameOf (car_names : List (Str × Str)) (carid : Str) : Str :=
  (car_names.lookup carid).getD carid

/-- Lines 485-497: artifact resolution for one entity under a
non-to-game-format operation (`ConvertToEditable`, `ConvertToEditableSplit`,
`DumpTexture`).  `srcFiles` is the set of file names present in the CarObj
folder.  Returns the `files_to_process` entries contributed by this entity and
the console lines appended for it. -/
def resolveEntityNonConvert (tool : ToolName) (srcFiles : List Str) (carid : Str) :
    List Item × List Str :=
  let day_file := carid ++ day_ext tool
  let night_file := carid ++ night_ext tool
  let items :=
    (if day_file ∈ srcFiles then [⟨day_file, false, carid, str "file"⟩] else [])
      ++ (if night_file ∈ srcFiles then [⟨night_file, true, carid, str "file"⟩] else [])
  let logs :=
    if ¬(day_file ∈ srcFiles ∨ night_file ∈ srcFiles) then
      [str "File not found for CarID " ++ carid]
    else []
  (items, logs)

/-- Lines 446-497 for a non-to-game-format operation: the resolution loop over
the selected entity ids.  Besides accumulating `files_to_process` and the
console lines, it returns the final value of the loop variable `car_name`
(line 448), which the later processing loop keeps using without recomputing
it (lines 539-541). -/
def resolutionPhaseEditable (car_names : List (Str × Str)) (tool : ToolName)
    (srcFiles : List Str) (selected : List Str) :
    List Item × List Str × Option Str :=
  selected.foldl
    (fun acc carid =>
      let car_name := carNameOf car_names carid
      let r := resolveEntityNonConvert tool srcFiles carid
      (acc.1 ++ r.1, acc.2.1 ++ r.2, some car_name))
    ([], [], none)

/-- Output paths are lists of path segments below the output root. -/
abbrev OPath := List Str

/-- Lines 535-541: the destination directory of one job, derived from the
(possibly stale) `car_name` in scope, the variant folder, and, for
to-game-format conversions, the extra `new` segment. -/
def out_dir_of (car_name : Str) (is_night : Bool) (is_conv : Bool) : OPath :=
  let version_folder := if is_night then str "Night" else str "Day"
  if is_conv then [car_name, version_folder, str "new"]
  else [car_name, version_folder]

/-- The filesystem state threaded through a batch run. -/
structure Fs where
  nextTmp : Nat
  tmpLive : List Nat
  dirs : List OPath
  outTrees : List (OPath × List Entry)
deriving DecidableEq, Repr

/-- `tempfile.mkdtemp()`: the new directory gets identifier `fs.nextTmp`. -/
def mkdtempFs (fs : Fs) : Fs :=
  { fs with nextTmp := fs.nextTmp + 1, tmpLive := fs.tmpLive ++ [fs.nextTmp] }

/-- `shutil.rmtree` of temporary directory `i`. -/
def rmtree (fs : Fs) (i : Nat) : Fs :=
  { fs with tmpLive := fs.tmpLive.filter (fun j => decide (j ≠ i)) }

/-- `os.makedirs(p, exist_ok=True)` (line 542). -/
def makedirs (fs : Fs) (p : OPath) : Fs :=
  if p ∈ fs.dirs then fs else { fs with dirs := fs.dirs ++ [p] }

/-- The entries currently placed in output directory `p`. -/
def getTree (fs : Fs) (p : OPath) : List Entry :=
  (((fs.outTrees.find? (fun kv => decide (kv.1 = p))).map Prod.snd).getD [])

/-- Replace the entry list of output directory `p`. -/
def setTree (fs : Fs) (p : OPath) (t : List Entry) : Fs :=
  { fs with outTrees := fs.outTrees.filter (fun kv => decide (kv.1 ≠ p)) ++ [(p, t)] }

/-- `shutil.move(item, os.path.join(out_dir, name))` for a file or folder
entry: any same-named entry already at the destination is replaced. -/
def moveIntoOut (fs : Fs) (p : OPath) (e : Entry) : Fs :=
  setTree fs p ((getTree fs p).filter (fun f => decide (f.name ≠ e.name)) ++ [e])

/-- Lines 834-845: remove the staging directory and, when one was created, the
decompression directory (the per-branch cleanup blocks at lines 654-663 and
683-690 have the same shape). -/
def cleanupTmp (fs : Fs) (tmpw : Nat) (dec : Option Nat) : Fs :=
  let fs1 := rmtree fs tmpw
  match dec with
  | some d => rmtree fs1 d
  | none => fs1

/-- Outcome of the `SubprocessWorker` for one job: either the process finished
(with return code, captured stdout and stderr), or the worker signalled an
error message via its `error` signal (timeout or launch failure). -/
inductive RunnerResult where
  | finished (rc : Int) (out err : Str)
  | failed (msg : Str)
deriving DecidableEq, Repr

/-- Per-artifact oracle for everything `run_tool` observes from outside:
whether gzip decompression succeeds (lines 529-533), whether the source still
exists at line 561, whether the staging copy (lines 566-609) succeeds, the
user's answer to the interactive-console dialog (lines 645-651), the worker
outcome, and the staging-directory listing at classification time. -/
structure Env where
  gzWorks : Bool
  workFileExists : Bool
  copyOk : Bool
  userAccepts : Bool
  runner : RunnerResult
  toolOutput : List Entry
deriving DecidableEq, Repr

/-- The batch-constant data of one `run_tool` invocation: the chosen operation
and the value of the `car_name` variable visible to the processing loop. -/
structure Cfg where
  tool_name : ToolName
  car_name : Str
deriving DecidableEq, Repr

/-- One staging entry of the to-game-format placement loop (lines 733-750). -/
def placeConvertAllStep (out_dir : OPath) (input_file_ext : Str)
    (file_extensions : List Str) (acc : Fs × List Str × Nat) (item : Entry) :
    Fs × List Str × Nat :=
  if item.isDir = false ∧ extLower item.name = input_file_ext then acc
  else
    let item_ext := extLower item.name
    if item_ext ∈ file_extensions then
      (moveIntoOut acc.1 out_dir item,
       acc.2.1 ++ [str "  Saved: " ++ item.name], acc.2.2 + 1)
    else if item.isDir then
      (moveIntoOut acc.1 out_dir item,
       acc.2.1 ++ [str "  Saved: " ++ item.name ++ str " (folder)"], acc.2.2 + 1)
    else acc

/-- Lines 732-750: placement of classified output for a to-game-format
conversion.  Walks the staging listing; skips the input file (matched by
extension); moves files whose (lowered) extension is in `file_extensions`,
and any directory, to the destination. -/
def placeConvertAll (fs : Fs) (out_dir : OPath) (listing : List Entry)
    (input_file_ext : Str) (file_extensions : List Str) : Fs × List Str × Nat :=
  listing.foldl (placeConvertAllStep out_dir input_file_ext file_extensions) (fs, [], 0)

/-- One staging entry of the texture-tool placement loop (lines 779-794). -/
def placeTextureDumpStep (out_dir : OPath) (input_file_ext : Str)
    (acc : Fs × List Str × Nat) (item : Entry) : Fs × List Str × Nat :=
  if item.isDir = false ∧ extLower item.name = input_file_ext then acc
  else if item.isDir then
    (moveIntoOut acc.1 out_dir item,
     acc.2.1 ++ [str "  Saved: " ++ item.name ++ str " (folder)"], acc.2.2 + 1)
  else
    (moveIntoOut acc.1 out_dir item,
     acc.2.1 ++ [str "  Saved: " ++ item.name], acc.2.2 + 1)

/-- Lines 778-794: placement for texture tools (`DumpTexture`): every entry
other than the input file (matched by extension) is moved, folders included. -/
def placeTextureDump (fs : Fs) (out_dir : OPath) (listing : List Entry)
    (input_file_ext : Str) : Fs × List Str × Nat :=
  listing.foldl (placeTextureDumpStep out_dir input_file_ext) (fs, [], 0)

/-- Lines 714-727 / 797-799: the expected output extensions of the model
tools. -/
def modelToolExts : List Str :=
  [str ".json", str ".obj", str ".mtl", str ".cdo", str ".cno", str ".cdp", str ".cnp"]

/-- Lines 797-799: candidate base names; night model conversions also try the
`_night`-suffixed base name. -/
def searchPatterns (base_name : Str) (is_night is_texture_tool : Bool) : List Str :=
  if is_night ∧ is_texture_tool = false then [base_name, base_name ++ str "_night"]
  else [base_name]

/-- Line 829: the no-output warning. -/
def warnNoOutput : Str := str "  Warning: No output files generated."

/-- One `(pattern, ext)` probe of the pattern phase (lines 801-812): if a file
named `pattern + ext` is in the staging directory, move it, renaming a
`_night`-suffixed result back to the base name.  The accumulator threads the
staging listing together with the filesystem state, logs and move count. -/
def modelExtStep (out_dir : OPath) (base_name : Str) (is_night : Bool) (pattern : Str)
    (st : List Entry × Fs × List Str × Nat) (ext : Str) :
    List Entry × Fs × List Str × Nat :=
  let tmp_out := pattern ++ ext
  match st.1.find? (fun e => decide (e.name = tmp_out) && !e.isDir) with
  | some e =>
    let dest_name :=
      if is_night ∧ containsSub "_night" pattern = true then base_name ++ ext
      else pattern ++ ext
    (st.1.filter (fun f => decide (f.name ≠ tmp_out)),
     moveIntoOut st.2.1 out_dir { e with name := dest_name },
     st.2.2.1 ++ [str "  Saved: " ++ dest_name], st.2.2.2 + 1)
  | none => st

/-- One pattern of the pattern phase: try every expected extension. -/
def modelPatternStep (out_dir : OPath) (base_name : Str) (is_night : Bool)
    (st : List Entry × Fs × List Str × Nat) (pattern : Str) :
    List Entry × Fs × List Str × Nat :=
  modelToolExts.foldl (modelExtStep out_dir base_name is_night pattern) st

/-- One remaining staging file of the fallback phase (lines 816-826). -/
def fallbackStep (out_dir : OPath) (input_file_ext : Str)
    (acc : Fs × List Str × Nat) (item : Entry) : Fs × List Str × Nat :=
  if item.isDir then acc
  else if extLower item.name = input_file_ext then acc
  else
    (moveIntoOut acc.1 out_dir item,
     acc.2.1 ++ [str "  Saved: " ++ item.name], acc.2.2 + 1)

/-- Lines 796-829: placement for the editable-conversion model tools.  First
the pattern phase moves files named `<pattern><ext>` (renaming a
`_night`-suffixed result back to the base name); if nothing matched, the
fallback moves every remaining file other than the input (matched by
extension); if still nothing was moved, the warning is logged. -/
def placeModelTool (fs : Fs) (out_dir : OPath) (listing : List Entry)
    (base_name input_file_ext : Str) (is_night is_texture_tool : Bool) :
    Fs × List Str × Nat :=
  let patterns := searchPatterns base_name is_night is_texture_tool
  let st1 := patterns.foldl (modelPatternStep out_dir base_name is_night)
    ((listing, fs, [], 0) : List Entry × Fs × List Str × Nat)
  let fb :=
    if st1.2.2.2 = 0 then
      st1.1.foldl (fallbackStep out_dir input_file_ext) (st1.2.1, st1.2.2.1, st1.2.2.2)
    else (st1.2.1, st1.2.2.1, st1.2.2.2)
  if fb.2.2 = 0 then (fb.1, fb.2.1 ++ [warnNoOutput], fb.2.2) else fb

/-- Lines 695-831: the Output Classifier and Placement stage (with the Variant
Normalizer of lines 755-776 folded in for Night model conversions), dispatched
on the operation class exactly as the three placement branches of the source
are. -/
def classify_and_place (cfg : Cfg) (env : Env) (it : Item) (fs2 : Fs) (out_dir : OPath)
    (base_name input_file_ext : Str) : Fs × List Str × Nat :=
  let is_texture_tool := isTextureTool cfg.tool_name
  let is_convert_all := isConvertAll cfg.tool_name
  if is_convert_all = true then
    let file_extensions :=
      if it.file_type = str "model" then [str ".cdo", str ".cno"]
      else [str ".cdp", str ".cnp"]
    let p1 := placeConvertAll fs2 out_dir env.toolOutput input_file_ext file_extensions
    if it.file_type = str "model" ∧ it.is_night = true then
      let nr := nightNormalizeFull (getTree p1.1 out_dir)
      (setTree p1.1 out_dir nr.1, p1.2.1 ++ nr.2.1, p1.2.2 + nr.2.2)
    else p1
  else if is_texture_tool = true then
    placeTextureDump fs2 out_dir env.toolOutput input_file_ext
  else
    placeModelTool fs2 out_dir env.toolOutput base_name input_file_ext
      it.is_night is_texture_tool

/-- Lines 535-845, the part of one loop iteration after the gzip handling.
`tmp_decompress` is the identifier of the decompression directory when one was
created, `work_file` the (possibly decompressed) input name.  The third
component of the result is `some msg` when an exception escapes to the outer
handler at line 847, and `none` when the iteration ends via `continue` or by
falling off the end of the body.  Console text is abridged but keeps the
structure of the original lines. -/
def processAfterGz (cfg : Cfg) (env : Env) (fs : Fs) (it : Item)
    (exe arg : Str) (tmp_decompress : Option Nat) (work_file : Str) :
    Fs × List Str × Option Str :=
  let is_convert_all := isConvertAll cfg.tool_name
  let out_dir := out_dir_of cfg.car_name it.is_night is_convert_all
  let fs1 := makedirs fs out_dir
  let logs0 := [str "  Processing: " ++ cfg.car_name]
  let tmpw := fs1.nextTmp
  let fs2 := mkdtempFs fs1
  if env.workFileExists = false then
    (fs2, logs0 ++ [str "  Error: Source file not found: " ++ work_file], none)
  else if env.copyOk = false then
    (rmtree fs2 tmpw, logs0 ++ [str "  Error copying file"], none)
  else
    let timeout := timeoutFor cfg.tool_name
    let use_console := containsSub "ModelTool" exe && containsSub "-o2" arg
    if use_console = true ∧ env.userAccepts = false then
      (cleanupTmp fs2 tmpw tmp_decompress,
       logs0 ++ [str "  Aborted by user: interactive conversion skipped"], none)
    else
      match env.runner with
      | .failed msg =>
        let logs1 := logs0 ++ [str "  Error: " ++ msg]
        if containsSub "timed out" (lowerStr msg) = true then
          (cleanupTmp fs2 tmpw tmp_decompress,
           logs1 ++ [str "  Error: Operation timed out after "
                      ++ str (toString timeout) ++ str " seconds"], none)
        else (fs2, logs1, some msg)
      | .finished rc out err =>
        if rc ≠ 0 then
          (cleanupTmp fs2 tmpw tmp_decompress,
           logs0 ++ [str "  Error: " ++ err], none)
        else
          let base_name := splitExtBase work_file
          let input_file_ext := extLower work_file
          let stdoutLogs := if out = [] then [] else [str "  Output: " ++ out]
          let pl := classify_and_place cfg env it fs2 out_dir base_name input_file_ext
          (cleanupTmp pl.1 tmpw tmp_decompress,
           logs0 ++ stdoutLogs ++ pl.2.1 ++ [str "  Success"], none)

/-- Lines 513-845: the body of one processing-loop iteration, inside the
per-artifact `try`.  Chooses executable and argument (lines 516-523; outside
convert-all runs they were fixed at lines 405-414), handles an optional gzip
decompression (lines 525-533, which creates its own temporary directory and
can raise before the staging directory exists), then continues in
`processAfterGz`. -/
def processOneBody (cfg : Cfg) (env : Env) (fs : Fs) (it : Item) :
    Fs × List Str × Option Str :=
  let is_texture_tool := isTextureTool cfg.tool_name
  let is_convert_all := isConvertAll cfg.tool_name
  let exe :=
    if is_convert_all = true then
      (if it.file_type = str "texture" then str "GT2TextureEditor.exe"
       else str "GT2ModelTool.exe")
    else
      (if is_texture_tool = true then str "GT2TextureEditor.exe"
       else str "GT2ModelTool.exe")
  let arg := if is_convert_all = true then str "-o2" else toolArg cfg.tool_name
  if nameEndsGz it.src_file = true then
    let dec := fs.nextTmp
    let fs1 := mkdtempFs fs
    if env.gzWorks = false then
      (fs1, [], some (str "gzip decompression failed"))
    else
      processAfterGz cfg env fs1 it exe arg (some dec)
        (it.src_file.take (it.src_file.length - 3))
  else processAfterGz cfg env fs it exe arg none it.src_file

/-- Line 848: the console line of the outer exception handler. -/
def excLog (carid msg : Str) : Str :=
  str "Exception processing " ++ carid ++ (str ": " ++ msg)

/-- One processing-loop iteration wrapped in its `try ... except Exception`
(lines 513-514 and 847-848): an escaped exception becomes one log line naming
the entity id, and the (possibly partially modified) filesystem state is kept. -/
def processAllStep (cfg : Cfg) (acc : Fs × List Str) (j : Item × Env) : Fs × List Str :=
  let r := processOneBody cfg j.2 acc.1 j.1
  match r.2.2 with
  | some e => (r.1, acc.2 ++ r.2.1 ++ [excLog j.1.carid e])
  | none => (r.1, acc.2 ++ r.2.1)

/-- Lines 513-848: the processing loop over `files_to_process`.  Each
iteration runs inside `try ... except Exception`, so a single artifact's
failure never aborts the loop; the function is total and never fails. -/
def processAll (cfg : Cfg) (fs : Fs) (jobs : List (Item × Env)) : Fs × List Str :=
  jobs.foldl (processAllStep cfg) (fs, [])

/-- `run_tool` for a non-to-game-format operation, after its precondition
checks: resolution (lines 446-497) followed by the processing loop (lines
513-848).  The `car_name` the processing loop sees is the one left over from
the last iteration of the resolution loop. -/
def runToolEditable (car_names : List (Str × Str)) (tool : ToolName)
    (srcFiles : List Str) (selected : List Str) (envs : List Env) (fs : Fs) :
    Fs × List Str :=
  let r := resolutionPhaseEditable car_names tool srcFiles selected
  let cfg : Cfg := { tool_name := tool, car_name := (r.2.2).getD [] }
  let p := processAll cfg fs (r.1.zip envs)
  (p.1, r.2.1 ++ p.2)

/-- Well-formed filesystem state: every live temporary-directory identifier
was produced by an earlier value of the counter. -/
def FsWF (fs : Fs) : Prop := ∀ i ∈ fs.tmpLive, i < fs.nextTmp

/-- The empty initial filesystem state. -/
def fs0 : Fs := ⟨0, [], [], []⟩

/-- An oracle for a job whose staging, run and classification all succeed and
whose staging directory holds `listing` afterwards. -/
def envOk (listing : List Entry) : Env :=
  { gzWorks := true, workFileExists := true, copyOk := true, userAccepts := true,
    runner := .finished 0 [] [], toolOutput := listing }

/-- Display-name table with two selected entities. -/
def cnAB : List (Str × Str) := [(str "a", str "Alpha"), (str "b", str "Beta")]

/-- Normalizer fold invariant: every `.cdo`-named entry of the state is either
still pending in the remaining snapshot `l`, or already has its `.cno`
companion in the state. -/
def InvP (l : List Str) (s : List Entry) : Prop :=
  ∀ f ∈ names s, nameEndsCdo f = true →
    f ∈ l ∨ (splitExtBase f ++ str ".cno") ∈ names s

/-- The concrete C2 scenario: entities `a` (display name `Alpha`) and `b`
(display name `Beta`) both selected, both with a day model file, operation
ConvertToEditable; each job's converter emits `<carid>.json`. -/
def c2Run : Fs × List Str :=
  runToolEditable cnAB .ConvertToEditable [str "a.cdo", str "b.cdo"] [str "a", str "b"]
    [envOk [⟨str "a.json", false, 10⟩], envOk [⟨str "b.json", false, 11⟩]] fs0

/-- C1 counterexample scenario: the source file disappears between resolution
and staging (`os.path.exists` at line 561 is false), so the iteration hits
`continue` at line 563. -/
def c1Env : Env := { envOk [] with workFileExists := false }

/-- The C1 counterexample run over the empty initial state. -/
def c1Run : Fs × List Str × Option Str :=
  processOneBody ⟨.ConvertToEditable, str "Alpha"⟩ c1Env fs0
    ⟨str "a.cdo", false, str "a", str "file"⟩

/-- C3 counterexample scenario: the destination directory already holds a file
`x.cdp` (content 0) from an earlier run. -/
def c3Fs : Fs :=
  { nextTmp := 0, tmpLive := [], dirs := [[str "N", str "Day", str "new"]],
    outTrees := [([str "N", str "Day", str "new"], [⟨str "x.cdp", false, 0⟩])] }

/-- The C3 counterexample placement: the converter produced a new `x.cdp`
(content 1) and placement moves it onto the existing destination file. -/
def c3Run : Fs × List Str × Nat :=
  placeConvertAll c3Fs [str "N", str "Day", str "new"] [⟨str "x.cdp", false, 1⟩] []
    [str ".cdp", str ".cnp"]

/-- C9 counterexample scenario: the staging directory holds only `weird.bin`
(the converter consumed the staged input `x.cdo`), so no expected pattern
matches and the fallback runs. -/
def c9Run : Fs × List Str × Nat :=
  placeModelTool fs0 [str "N", str "Day"] [⟨str "weird.bin", false, 1⟩]
    (str "x") (str ".cdo") false false

/-- C4 witness scenario: the worker reports a launch failure `boom` (not a
timeout), which line 676 re-raises to the outer handler. -/
def c4env : Env := { envOk [] with runner := .failed (str "boom") }

/-- The filesystem state after the C4 witness iteration: the destination
directory was created and the staging directory (id 0) leaked. -/
def c4fs1 : Fs := ⟨1, [0], [[str "Alpha", str "Day"]], []⟩

/-- The console lines of the C4 witness iteration before the outer handler. -/
def c4logs : List Str := [str "  Processing: Alpha", str "  Error: boom"]

/-! ### Helper lemmas -/

theorem lowerStr_append (a b : Str) : lowerStr (a ++ b) = lowerStr a ++ lowerStr b :=
  List.map_append _ a b

theorem nameEndsCdo_append_cno (b : Str) : nameEndsCdo (b ++ str ".cno") = false := by
  simp only [nameEndsCdo, endsWithLower, lowerStr_append, decide_eq_false_iff_not]
  intro h
  have hl : lowerStr (str ".cno") = str ".cno" := by decide
  rw [hl] at h
  obtain ⟨t, ht⟩ := h
  have h6 := List.append_inj_right' ht (by decide)
  exact absurd h6 (by decide)

theorem nameEndsCno_append_cno (b : Str) : nameEndsCno (b ++ str ".cno") = true := by
  simp only [nameEndsCno, endsWithLower, lowerStr_append, decide_eq_true_eq]
  have hl : lowerStr (str ".cno") = str ".cno" := by decide
  rw [hl]
  exact ⟨lowerStr b, rfl⟩

theorem names_append (a b : List Entry) : names (a ++ b) = names a ++ names b :=
  List.map_append _ a b

theorem mem_names {n : Str} {l : List Entry} : n ∈ names l ↔ ∃ e ∈ l, e.name = n := by
  simp [names]

theorem normStepFull_noop (acc : List Entry × List Str × Nat) (x : Str)
    (h : nameEndsCdo x = false ∨ (splitExtBase x ++ str ".cno") ∈ names acc.1) :
    normStepFull acc x = acc := by
  rcases h with h | h
  · simp [normStepFull, h]
  · by_cases hc : nameEndsCdo x
    · simp [normStepFull, hc, h]
    · simp [normStepFull, hc]

theorem foldl_normStepFull_noop (l : List Str) (s : List Entry) (logs : List Str) (k : Nat)
    (h : ∀ x ∈ l, nameEndsCdo x = true → (splitExtBase x ++ str ".cno") ∈ names s) :
    l.foldl normStepFull (s, logs, k) = (s, logs, k) := by
  induction l with
  | nil => rfl
  | cons x xs ih =>
    have hx : normStepFull (s, logs, k) x = (s, logs, k) := by
      by_cases hc : nameEndsCdo x
      · exact normStepFull_noop _ _ (Or.inr (h x (List.mem_cons_self x xs) hc))
      · exact normStepFull_noop _ _ (Or.inl (by simpa using hc))
    rw [List.foldl_cons, hx]
    exact ih (fun y hy hcy => h y (List.mem_cons_of_mem x hy) hcy)

theorem invP_step (x : Str) (l : List Str) (acc : List Entry × List Str × Nat)
    (h : InvP (x :: l) acc.1) : InvP l (normStepFull acc x).1 := by
  by_cases hc : nameEndsCdo x
  case neg =>
    rw [normStepFull_noop acc x (Or.inl (by simpa using hc))]
    intro f hf hcf
    rcases h f hf hcf with hm | hm
    · rcases List.mem_cons.1 hm with rfl | hm2
      · exact absurd hcf hc
      · exact Or.inl hm2
    · exact Or.inr hm
  case pos =>
    by_cases hm : (splitExtBase x ++ str ".cno") ∈ names acc.1
    · rw [normStepFull_noop acc x (Or.inr hm)]
      intro f hf hcf
      rcases h f hf hcf with h1 | h1
      · rcases List.mem_cons.1 h1 with rfl | h2
        · exact Or.inr hm
        · exact Or.inl h2
      · exact Or.inr h1
    · rcases hfind : acc.1.find? (fun e => decide (e.name = x)) with _ | e
      · have hxnot : x ∉ names acc.1 := by
          intro hx
          rcases mem_names.1 hx with ⟨g, hg, hgn⟩
          have h3 := List.find?_eq_none.1 hfind g hg
          simp [hgn] at h3
        have hstep : normStepFull acc x = acc := by
          simp [normStepFull, hc, hm, hfind]
        rw [hstep]
        intro f hf hcf
        rcases h f hf hcf with h1 | h1
        · rcases List.mem_cons.1 h1 with rfl | h2
          · exact absurd hf hxnot
          · exact Or.inl h2
        · exact Or.inr h1
      · have hen : e.name = x := by
          have h3 := List.find?_some hfind
          simpa using h3
        have hemem : e ∈ acc.1 := List.mem_of_find?_eq_some hfind
        have hxmem : x ∈ names (acc.1 ++ [{ e with name := splitExtBase x ++ str ".cno" }]) := by
          rw [names_append]
          exact List.mem_append_left _ (mem_names.2 ⟨e, hemem, hen⟩)
        have hstep1 : (normStepFull acc x).1 =
            (acc.1 ++ [{ e with name := splitExtBase x ++ str ".cno" }]).filter
              (fun f => decide (f.name ≠ x)) := by
          simp [normStepFull, hc, hm, hfind, hxmem]
        rw [hstep1]
        intro f hf hcf
        rcases mem_names.1 hf with ⟨g, hg, hgn⟩
        rw [List.mem_filter] at hg
        obtain ⟨hg1, hg2⟩ := hg
        have hfne : f ≠ x := by
          intro hfx
          rw [hfx] at hgn
          simp [hgn] at hg2
        rcases List.mem_append.1 hg1 with hgs | hge
        · have hfs : f ∈ names acc.1 := mem_names.2 ⟨g, hgs, hgn⟩
          rcases h f hfs hcf with h1 | h1
          · rcases List.mem_cons.1 h1 with rfl | h2
            · exact absurd rfl hfne
            · exact Or.inl h2
          · apply Or.inr
            rcases mem_names.1 h1 with ⟨g2, hg2s, hg2n⟩
            apply mem_names.2
            refine ⟨g2, ?_, hg2n⟩
            rw [List.mem_filter]
            refine ⟨List.mem_append_left _ hg2s, ?_⟩
            have hne : g2.name ≠ x := by
              rw [hg2n]
              intro hcc
              have h1x := nameEndsCdo_append_cno (splitExtBase f)
              rw [hcc] at h1x
              rw [h1x] at hc
              exact absurd hc (by simp)
            simpa using hne
        · have hgeq : g = { e with name := splitExtBase x ++ str ".cno" } := by
            simpa using hge
          rw [hgeq] at hgn
          simp only at hgn
          rw [← hgn] at hcf
          have h1x := nameEndsCdo_append_cno (splitExtBase x)
          rw [h1x] at hcf
          exact absurd hcf (by simp)

theorem invP_fold (l : List Str) (acc : List Entry × List Str × Nat)
    (h : InvP l acc.1) : InvP [] (l.foldl normStepFull acc).1 := by
  induction l generalizing acc with
  | nil => exact h
  | cons x xs ih =>
    rw [List.foldl_cons]
    exact ih _ (invP_step x xs acc h)

theorem invP_nightNormalize (s : List Entry) : InvP [] (nightNormalizeFull s).1 := by
  unfold nightNormalizeFull
  apply invP_fold
  intro f hf _
  exact Or.inl hf

theorem find?_middle {α : Type} (p : α → Bool) (l1 l2 : List α) (e : α)
    (h1 : ∀ g ∈ l1, p g = false) (h2 : p e = true) :
    (l1 ++ e :: l2).find? p = some e := by
  induction l1 with
  | nil => simp [List.find?_cons, h2]
  | cons a as ih =>
    have ha := h1 a (List.mem_cons_self a as)
    simp only [List.cons_append, List.find?_cons, ha]
    exact ih (fun g hg => h1 g (List.mem_cons_of_mem a hg))

/-- C8: running the Variant Normalizer a second time over the destination
state produced by a first run changes nothing: same filesystem state, no log
lines (in particular no duplicate `.cno` synthesis) and no moves, hence no
error, on the second run. -/
theorem night_normalizer_idempotent (s : List Entry) :
    nightNormalizeFull ((nightNormalizeFull s).1) = ((nightNormalizeFull s).1, [], 0) := by
  have hg := invP_nightNormalize s
  have hall : ∀ x ∈ names ((nightNormalizeFull s).1), nameEndsCdo x = true →
      (splitExtBase x ++ str ".cno") ∈ names ((nightNormalizeFull s).1) := by
    intro x hx hcx
    rcases hg x hx hcx with h | h
    · simp at h
    · exact h
  unfold nightNormalizeFull
  exact foldl_normStepFull_noop _ _ _ _ hall

/-- C7: for a Night model-to-game-format conversion whose placement left a
day-format `.cdo` entry but no night-format `.cno` with the same base name
(and no other game-format entry) in the destination, the normalizer
duplicates the day file under the `.cno` name, logs the synthesis, and
removes the original `.cdo`, leaving exactly one game-format file in the
Night destination; and when every `.cdo` already has its `.cno` companion the
step is a no-op (same state, no logs, no moves). -/
theorem night_normalizer_synthesis :
    (∀ (out : List Entry) (e : Entry),
       e ∈ out → nameEndsCdo e.name = true →
       (splitExtBase e.name ++ str ".cno") ∉ names out →
       (names out).Nodup →
       (∀ f ∈ out, f ≠ e → gameFmt f.name = false) →
       ({ e with name := splitExtBase e.name ++ str ".cno" } ∈ (nightNormalizeFull out).1
        ∧ (∀ f ∈ (nightNormalizeFull out).1, nameEndsCdo f.name = false)
        ∧ ((nightNormalizeFull out).1.filter (fun f => gameFmt f.name)).length = 1
        ∧ (str "  Saved: " ++ (splitExtBase e.name ++ str ".cno"))
            ∈ (nightNormalizeFull out).2.1))
    ∧ (∀ out : List Entry,
        (∀ n ∈ names out, nameEndsCdo n = true →
          (splitExtBase n ++ str ".cno") ∈ names out) →
        nightNormalizeFull out = (out, [], 0)) := by
  refine ⟨?_, ?_⟩
  · intro out e he hcdo hno hnd honly
    obtain ⟨l1, l2, hout⟩ := List.append_of_mem he
    subst hout
    have hnames : names (l1 ++ e :: l2) = names l1 ++ e.name :: names l2 := by
      simp [names]
    rw [hnames] at hnd
    have hsplit := List.nodup_append.1 hnd
    have hnotl1 : e.name ∉ names l1 := fun hx => hsplit.2.2 hx (List.mem_cons_self _ _)
    have hnotl2 : e.name ∉ names l2 := (List.nodup_cons.1 hsplit.2.1).1
    have hng1 : ∀ g ∈ l1, gameFmt g.name = false := by
      intro g hg
      refine honly g (List.mem_append_left _ hg) ?_
      intro hge
      exact hnotl1 (mem_names.2 ⟨g, hg, by rw [hge]⟩)
    have hng2 : ∀ g ∈ l2, gameFmt g.name = false := by
      intro g hg
      refine honly g (List.mem_append_right _ (List.mem_cons_of_mem e hg)) ?_
      intro hge
      exact hnotl2 (mem_names.2 ⟨g, hg, by rw [hge]⟩)
    have hcf1 : ∀ x ∈ names l1, nameEndsCdo x = false := by
      intro x hx
      rcases mem_names.1 hx with ⟨g, hg, hgn⟩
      have hgm := hng1 g hg
      rw [hgn] at hgm
      exact (Bool.or_eq_false_iff.1 hgm).1
    have hcf2 : ∀ x ∈ names l2, nameEndsCdo x = false := by
      intro x hx
      rcases mem_names.1 hx with ⟨g, hg, hgn⟩
      have hgm := hng2 g hg
      rw [hgn] at hgm
      exact (Bool.or_eq_false_iff.1 hgm).1
    have hne' : ({ e with name := splitExtBase e.name ++ str ".cno" } : Entry).name ≠ e.name := by
      simp only
      intro hcc
      have h1x := nameEndsCdo_append_cno (splitExtBase e.name)
      rw [hcc, hcdo] at h1x
      exact absurd h1x (by simp)
    have hfold1 : (names l1).foldl normStepFull (l1 ++ e :: l2, [], 0) = (l1 ++ e :: l2, [], 0) :=
      foldl_normStepFull_noop _ _ _ _ (fun x hx hcx => absurd hcx (by simp [hcf1 x hx]))
    have hfind : (l1 ++ e :: l2).find? (fun g => decide (g.name = e.name)) = some e := by
      apply find?_middle
      · intro g hg
        have hgne : g.name ≠ e.name := fun hh => hnotl1 (mem_names.2 ⟨g, hg, hh⟩)
        simpa using hgne
      · simp
    have hxmem : e.name ∈
        names (l1 ++ e :: (l2 ++ [{ e with name := splitExtBase e.name ++ str ".cno" }])) := by
      simp [names]
    have hstep : normStepFull (l1 ++ e :: l2, [], 0) e.name =
        (((l1 ++ e :: l2) ++ [{ e with name := splitExtBase e.name ++ str ".cno" }]).filter
           (fun f => decide (f.name ≠ e.name)),
         [str "  Saved: " ++ (splitExtBase e.name ++ str ".cno"),
          str "  Removed: " ++ e.name], 1) := by
      simp [normStepFull, hcdo, hno, hfind, hxmem]
    have hs' : ((l1 ++ e :: l2) ++ [{ e with name := splitExtBase e.name ++ str ".cno" }]).filter
          (fun f => decide (f.name ≠ e.name)) =
        l1.filter (fun f => decide (f.name ≠ e.name))
          ++ l2.filter (fun f => decide (f.name ≠ e.name))
          ++ [{ e with name := splitExtBase e.name ++ str ".cno" }] := by
      simp [List.filter_append, List.filter_cons, hne']
    have hcfS : ∀ x ∈ names (l1.filter (fun f => decide (f.name ≠ e.name))
          ++ l2.filter (fun f => decide (f.name ≠ e.name))
          ++ [{ e with name := splitExtBase e.name ++ str ".cno" }]),
        nameEndsCdo x = true → False := by
      intro x hx hcx
      rw [names_append, names_append] at hx
      rcases List.mem_append.1 hx with hx1 | hx2
      · rcases List.mem_append.1 hx1 with hxa | hxb
        · rcases mem_names.1 hxa with ⟨g, hg, hgn⟩
          have hgl1 := (List.mem_filter.1 hg).1
          rw [← hgn] at hcx
          have hgm := hng1 g hgl1
          rw [(Bool.or_eq_false_iff.1 hgm).1] at hcx
          exact absurd hcx (by simp)
        · rcases mem_names.1 hxb with ⟨g, hg, hgn⟩
          have hgl2 := (List.mem_filter.1 hg).1
          rw [← hgn] at hcx
          have hgm := hng2 g hgl2
          rw [(Bool.or_eq_false_iff.1 hgm).1] at hcx
          exact absurd hcx (by simp)
      · have hxe : x = splitExtBase e.name ++ str ".cno" := by
          simpa [names] using hx2
        rw [hxe, nameEndsCdo_append_cno] at hcx
        exact absurd hcx (by simp)
    have hfold2 : (names l2).foldl normStepFull
        (l1.filter (fun f => decide (f.name ≠ e.name))
          ++ l2.filter (fun f => decide (f.name ≠ e.name))
          ++ [{ e with name := splitExtBase e.name ++ str ".cno" }],
         [str "  Saved: " ++ (splitExtBase e.name ++ str ".cno"),
          str "  Removed: " ++ e.name], 1) =
        (l1.filter (fun f => decide (f.name ≠ e.name))
          ++ l2.filter (fun f => decide (f.name ≠ e.name))
          ++ [{ e with name := splitExtBase e.name ++ str ".cno" }],
         [str "  Saved: " ++ (splitExtBase e.name ++ str ".cno"),
          str "  Removed: " ++ e.name], 1) :=
      foldl_normStepFull_noop _ _ _ _ (fun x hx hcx => absurd hcx (by simp [hcf2 x hx]))
    have hmain : nightNormalizeFull (l1 ++ e :: l2) =
        (l1.filter (fun f => decide (f.name ≠ e.name))
          ++ l2.filter (fun f => decide (f.name ≠ e.name))
          ++ [{ e with name := splitExtBase e.name ++ str ".cno" }],
         [str "  Saved: " ++ (splitExtBase e.name ++ str ".cno"),
          str "  Removed: " ++ e.name], 1) := by
      unfold nightNormalizeFull
      rw [hnames, List.foldl_append, hfold1, List.foldl_cons, hstep, hs', hfold2]
    rw [hmain]
    refine ⟨?_, ?_, ?_, ?_⟩
    · simp
    · intro f hf
      by_contra hcf
      have hcf' : nameEndsCdo f.name = true := by
        cases hcc : nameEndsCdo f.name
        · exact absurd hcc hcf
        · rfl
      exact hcfS f.name (mem_names.2 ⟨f, hf, rfl⟩) hcf'
    · have hn1 : (l1.filter (fun f => decide (f.name ≠ e.name))).filter
          (fun f => gameFmt f.name) = [] := by
        rw [List.filter_eq_nil_iff]
        intro a ha
        simp [hng1 a (List.mem_filter.1 ha).1]
      have hn2 : (l2.filter (fun f => decide (f.name ≠ e.name))).filter
          (fun f => gameFmt f.name) = [] := by
        rw [List.filter_eq_nil_iff]
        intro a ha
        simp [hng2 a (List.mem_filter.1 ha).1]
      have hge' : gameFmt ({ e with name := splitExtBase e.name ++ str ".cno" } : Entry).name
          = true := by
        simp [gameFmt, nameEndsCno_append_cno]
      rw [List.filter_append, List.filter_append, hn1, hn2]
      simp [hge']
    · simp
  · intro out h
    unfold nightNormalizeFull
    exact foldl_normStepFull_noop _ _ _ _ h

/-- C10: the timeout handed to the process runner is a function of the
operation name alone: 300 seconds for DumpTexture, 120 seconds for the two
to-game-format conversions, 60 seconds for every other operation. -/
theorem timeout_by_operation : ∀ t : ToolName, timeoutFor t = specTimeoutForOperation t := by
  intro t
  cases t <;> rfl

/-- C5: when both the day and the night source file of an entity are present,
non-convert-all resolution returns exactly two artifacts for that entity, the
first tagged Day and the second tagged Night, with the pair extensions
determined by the operation's content kind (texture: `.cdp`/`.cnp`, model:
`.cdo`/`.cno`). -/
theorem resolve_both_variants_two_artifacts (tool : ToolName) (srcFiles : List Str)
    (carid : Str) (hconv : isConvertAll tool = false)
    (hd : carid ++ day_ext tool ∈ srcFiles) (hn : carid ++ night_ext tool ∈ srcFiles) :
    (resolveEntityNonConvert tool srcFiles carid).1 =
      [⟨carid ++ day_ext tool, false, carid, str "file"⟩,
       ⟨carid ++ night_ext tool, true, carid, str "file"⟩]
    ∧ (day_ext tool, night_ext tool) =
        (if isTextureTool tool = true then (str ".cdp", str ".cnp")
         else (str ".cdo", str ".cno")) := by
  constructor
  · simp [resolveEntityNonConvert, hd, hn]
  · revert hconv
    cases tool <;> decide

/-- C5 witness: entity `x` with `x.cdo` and `x.cno` present in the source
folder under ConvertToEditable. -/
theorem resolve_both_variants_two_artifacts_witness :
    (resolveEntityNonConvert .ConvertToEditable [str "x.cdo", str "x.cno"] (str "x")).1 =
      [⟨str "x" ++ day_ext .ConvertToEditable, false, str "x", str "file"⟩,
       ⟨str "x" ++ night_ext .ConvertToEditable, true, str "x", str "file"⟩]
    ∧ (day_ext .ConvertToEditable, night_ext .ConvertToEditable) =
        (if isTextureTool .ConvertToEditable = true then (str ".cdp", str ".cnp")
         else (str ".cdo", str ".cno")) :=
  resolve_both_variants_two_artifacts .ConvertToEditable _ _ (by decide) (by decide) (by decide)

/-- C6 counterexample: entity `x` with exactly one pair member (`x.cdo`)
present.  Resolution emits the single day artifact but logs nothing, refuting
the claim that a log line is produced whenever exactly one member exists (the
code logs only when both are missing, line 495). -/
theorem missing_member_not_logged :
    (resolveEntityNonConvert .ConvertToEditable [str "x.cdo"] (str "x")).2 = []
    ∧ (str "x" ++ day_ext .ConvertToEditable ∈ [str "x.cdo"])
    ∧ (str "x" ++ night_ext .ConvertToEditable ∉ [str "x.cdo"])
    ∧ (resolveEntityNonConvert .ConvertToEditable [str "x.cdo"] (str "x")).1.length = 1 := by
  decide

/-- C6 (amended): each existing pair member becomes one artifact tagged with
its variant, but the missing-file console line is produced exactly when
neither pair member exists; when exactly one member exists nothing is
logged. -/
theorem resolve_logging_characterization (tool : ToolName) (srcFiles : List Str)
    (carid : Str) :
    (((resolveEntityNonConvert tool srcFiles carid).2 ≠ []) ↔
        (carid ++ day_ext tool ∉ srcFiles ∧ carid ++ night_ext tool ∉ srcFiles))
    ∧ ((⟨carid ++ day_ext tool, false, carid, str "file"⟩ : Item)
         ∈ (resolveEntityNonConvert tool srcFiles carid).1 ↔
           carid ++ day_ext tool ∈ srcFiles)
    ∧ ((⟨carid ++ night_ext tool, true, carid, str "file"⟩ : Item)
         ∈ (resolveEntityNonConvert tool srcFiles carid).1 ↔
           carid ++ night_ext tool ∈ srcFiles)
    ∧ (resolveEntityNonConvert tool srcFiles carid).1.length =
        (if carid ++ day_ext tool ∈ srcFiles then 1 else 0)
          + (if carid ++ night_ext tool ∈ srcFiles then 1 else 0) := by
  by_cases hd : carid ++ day_ext tool ∈ srcFiles <;>
    by_cases hn : carid ++ night_ext tool ∈ srcFiles <;>
    simp [resolveEntityNonConvert, hd, hn]

/-- C2 (code bug): `car_name` is bound inside the resolution loop (line 448)
and never recomputed in the processing loop (lines 513-541), so every job's
destination is derived from the last selected entity's display name.  With
entities `a` (Alpha) and `b` (Beta) both selected, entity `a`'s output lands
under `Beta/Day` while `Alpha/Day` stays empty. -/
theorem stale_car_name_misroutes_output :
    names (getTree c2Run.1 [str "Beta", str "Day"]) = [str "a.json", str "b.json"]
    ∧ getTree c2Run.1 [str "Alpha", str "Day"] = []
    ∧ carNameOf cnAB (str "a") = str "Alpha"
    ∧ (resolutionPhaseEditable cnAB .ConvertToEditable [str "a.cdo", str "b.cdo"]
        [str "a", str "b"]).1.map Item.carid = [str "a", str "b"] := by
  decide

theorem filter_ne_of_lt (l : List Nat) (n : Nat) (h : ∀ i ∈ l, i < n) (m : Nat) (hm : n ≤ m) :
    l.filter (fun j => decide (j ≠ m)) = l := by
  rw [List.filter_eq_self]
  intro a ha
  have h2 := h a ha
  simp only [decide_eq_true_eq]
  omega

theorem moveIntoOut_tmpLive (fs : Fs) (p : OPath) (e : Entry) :
    (moveIntoOut fs p e).tmpLive = fs.tmpLive := rfl

theorem moveIntoOut_dirs (fs : Fs) (p : OPath) (e : Entry) :
    (moveIntoOut fs p e).dirs = fs.dirs := rfl

theorem setTree_tmpLive (fs : Fs) (p : OPath) (t : List Entry) :
    (setTree fs p t).tmpLive = fs.tmpLive := rfl

theorem setTree_dirs (fs : Fs) (p : OPath) (t : List Entry) :
    (setTree fs p t).dirs = fs.dirs := rfl

theorem rmtree_dirs (fs : Fs) (i : Nat) : (rmtree fs i).dirs = fs.dirs := rfl

theorem mkdtempFs_dirs (fs : Fs) : (mkdtempFs fs).dirs = fs.dirs := rfl

theorem makedirs_tmpLive (fs : Fs) (p : OPath) : (makedirs fs p).tmpLive = fs.tmpLive := by
  unfold makedirs
  split <;> rfl

theorem makedirs_nextTmp (fs : Fs) (p : OPath) : (makedirs fs p).nextTmp = fs.nextTmp := by
  unfold makedirs
  split <;> rfl

theorem cleanupTmp_dirs (fs : Fs) (t : Nat) (dec : Option Nat) :
    (cleanupTmp fs t dec).dirs = fs.dirs := by
  cases dec <;> rfl

theorem cleanupTmp_tmpLive (fs : Fs) (t : Nat) (dec : Option Nat) :
    (cleanupTmp fs t dec).tmpLive =
      (match dec with
       | none => fs.tmpLive.filter (fun j => decide (j ≠ t))
       | some d =>
         (fs.tmpLive.filter (fun j => decide (j ≠ t))).filter (fun j => decide (j ≠ d))) := by
  cases dec <;> rfl

theorem mem_makedirs (fs : Fs) (p : OPath) : p ∈ (makedirs fs p).dirs := by
  unfold makedirs
  split
  · assumption
  · exact List.mem_append_right _ (List.mem_cons_self _ _)

theorem placeConvertAllStep_tmpLive (out_dir : OPath) (iext : Str) (exts : List Str)
    (acc : Fs × List Str × Nat) (item : Entry) :
    (placeConvertAllStep out_dir iext exts acc item).1.tmpLive = acc.1.tmpLive := by
  unfold placeConvertAllStep
  dsimp only
  split
  · rfl
  · split
    · rfl
    · split <;> rfl

theorem placeConvertAllStep_dirs (out_dir : OPath) (iext : Str) (exts : List Str)
    (acc : Fs × List Str × Nat) (item : Entry) :
    (placeConvertAllStep out_dir iext exts acc item).1.dirs = acc.1.dirs := by
  unfold placeConvertAllStep
  dsimp only
  split
  · rfl
  · split
    · rfl
    · split <;> rfl

theorem placeConvertAll_fold_tmpLive (out_dir : OPath) (iext : Str) (exts : List Str) :
    ∀ (listing : List Entry) (acc : Fs × List Str × Nat),
      ((listing.foldl (placeConvertAllStep out_dir iext exts) acc).1).tmpLive = acc.1.tmpLive := by
  intro listing
  induction listing with
  | nil => intro acc; rfl
  | cons x xs ih =>
    intro acc
    rw [List.foldl_cons, ih, placeConvertAllStep_tmpLive]

theorem placeConvertAll_fold_dirs (out_dir : OPath) (iext : Str) (exts : List Str) :
    ∀ (listing : List Entry) (acc : Fs × List Str × Nat),
      ((listing.foldl (placeConvertAllStep out_dir iext exts) acc).1).dirs = acc.1.dirs := by
  intro listing
  induction listing with
  | nil => intro acc; rfl
  | cons x xs ih =>
    intro acc
    rw [List.foldl_cons, ih, placeConvertAllStep_dirs]

theorem placeTextureDumpStep_tmpLive (out_dir : OPath) (iext : Str)
    (acc : Fs × List Str × Nat) (item : Entry) :
    (placeTextureDumpStep out_dir iext acc item).1.tmpLive = acc.1.tmpLive := by
  unfold placeTextureDumpStep
  split
  · rfl
  · split <;> rfl

theorem placeTextureDumpStep_dirs (out_dir : OPath) (iext : Str)
    (acc : Fs × List Str × Nat) (item : Entry) :
    (placeTextureDumpStep out_dir iext acc item).1.dirs = acc.1.dirs := by
  unfold placeTextureDumpStep
  split
  · rfl
  · split <;> rfl

theorem placeTextureDump_fold_tmpLive (out_dir : OPath) (iext : Str) :
    ∀ (listing : List Entry) (acc : Fs × List Str × Nat),
      ((listing.foldl (placeTextureDumpStep out_dir iext) acc).1).tmpLive = acc.1.tmpLive := by
  intro listing
  induction listing with
  | nil => intro acc; rfl
  | cons x xs ih =>
    intro acc
    rw [List.foldl_cons, ih, placeTextureDumpStep_tmpLive]

theorem placeTextureDump_fold_dirs (out_dir : OPath) (iext : Str) :
    ∀ (listing : List Entry) (acc : Fs × List Str × Nat),
      ((listing.foldl (placeTextureDumpStep out_dir iext) acc).1).dirs = acc.1.dirs := by
  intro listing
  induction listing with
  | nil => intro acc; rfl
  | cons x xs ih =>
    intro acc
    rw [List.foldl_cons, ih, placeTextureDumpStep_dirs]

theorem modelExtStep_tmpLive (out_dir : OPath) (base : Str) (isn : Bool) (pat : Str)
    (st : List Entry × Fs × List Str × Nat) (ext : Str) :
    (modelExtStep out_dir base isn pat st ext).2.1.tmpLive = st.2.1.tmpLive := by
  unfold modelExtStep
  dsimp only
  rcases h : st.1.find? (fun e => decide (e.name = pat ++ ext) && !e.isDir) with _ | e <;>
    simp only [h] <;> rfl

theorem modelExtStep_dirs (out_dir : OPath) (base : Str) (isn : Bool) (pat : Str)
    (st : List Entry × Fs × List Str × Nat) (ext : Str) :
    (modelExtStep out_dir base isn pat st ext).2.1.dirs = st.2.1.dirs := by
  unfold modelExtStep
  dsimp only
  rcases h : st.1.find? (fun e => decide (e.name = pat ++ ext) && !e.isDir) with _ | e <;>
    simp only [h] <;> rfl

theorem modelPatternStep_tmpLive (out_dir : OPath) (base : Str) (isn : Bool)
    (st : List Entry × Fs × List Str × Nat) (pat : Str) :
    (modelPatternStep out_dir base isn st pat).2.1.tmpLive = st.2.1.tmpLive := by
  unfold modelPatternStep
  generalize modelToolExts = L
  induction L generalizing st with
  | nil => rfl
  | cons x xs ih =>
    rw [List.foldl_cons]
    rw [ih, modelExtStep_tmpLive]

theorem modelPatternStep_dirs (out_dir : OPath) (base : Str) (isn : Bool)
    (st : List Entry × Fs × List Str × Nat) (pat : Str) :
    (modelPatternStep out_dir base isn st pat).2.1.dirs = st.2.1.dirs := by
  unfold modelPatternStep
  generalize modelToolExts = L
  induction L generalizing st with
  | nil => rfl
  | cons x xs ih =>
    rw [List.foldl_cons]
    rw [ih, modelExtStep_dirs]

theorem fallbackStep_tmpLive (out_dir : OPath) (iext : Str)
    (acc : Fs × List Str × Nat) (item : Entry) :
    (fallbackStep out_dir iext acc item).1.tmpLive = acc.1.tmpLive := by
  unfold fallbackStep
  split
  · rfl
  · split <;> rfl

theorem fallbackStep_dirs (out_dir : OPath) (iext : Str)
    (acc : Fs × List Str × Nat) (item : Entry) :
    (fallbackStep out_dir iext acc item).1.dirs = acc.1.dirs := by
  unfold fallbackStep
  split
  · rfl
  · split <;> rfl

theorem fallback_fold_tmpLive (out_dir : OPath) (iext : Str) :
    ∀ (listing : List Entry) (acc : Fs × List Str × Nat),
      ((listing.foldl (fallbackStep out_dir iext) acc).1).tmpLive = acc.1.tmpLive := by
  intro listing
  induction listing with
  | nil => intro acc; rfl
  | cons x xs ih =>
    intro acc
    rw [List.foldl_cons, ih, fallbackStep_tmpLive]

theorem fallback_fold_dirs (out_dir : OPath) (iext : Str) :
    ∀ (listing : List Entry) (acc : Fs × List Str × Nat),
      ((listing.foldl (fallbackStep out_dir iext) acc).1).dirs = acc.1.dirs := by
  intro listing
  induction listing with
  | nil => intro acc; rfl
  | cons x xs ih =>
    intro acc
    rw [List.foldl_cons, ih, fallbackStep_dirs]

theorem pattern_fold_tmpLive (out_dir : OPath) (base : Str) (isn : Bool) :
    ∀ (P : List Str) (st : List Entry × Fs × List Str × Nat),
      ((P.foldl (modelPatternStep out_dir base isn) st).2.1).tmpLive = st.2.1.tmpLive := by
  intro P
  induction P with
  | nil => intro st; rfl
  | cons x xs ih =>
    intro st
    rw [List.foldl_cons, ih, modelPatternStep_tmpLive]

theorem pattern_fold_dirs (out_dir : OPath) (base : Str) (isn : Bool) :
    ∀ (P : List Str) (st : List Entry × Fs × List Str × Nat),
      ((P.foldl (modelPatternStep out_dir base isn) st).2.1).dirs = st.2.1.dirs := by
  intro P
  induction P with
  | nil => intro st; rfl
  | cons x xs ih =>
    intro st
    rw [List.foldl_cons, ih, modelPatternStep_dirs]

theorem placeModelTool_tmpLive (fs : Fs) (out_dir : OPath) (listing : List Entry)
    (base iext : Str) (isn istex : Bool) :
    (placeModelTool fs out_dir listing base iext isn istex).1.tmpLive = fs.tmpLive := by
  unfold placeModelTool
  dsimp only
  have h1 : (((searchPatterns base isn istex).foldl (modelPatternStep out_dir base isn)
      (listing, fs, [], 0)).2.1).tmpLive = fs.tmpLive := pattern_fold_tmpLive _ _ _ _ _
  by_cases hA : ((searchPatterns base isn istex).foldl (modelPatternStep out_dir base isn)
      (listing, fs, [], 0)).2.2.2 = 0
  · rw [if_pos hA]
    have h2 : ((((searchPatterns base isn istex).foldl (modelPatternStep out_dir base isn)
        (listing, fs, [], 0)).1).foldl (fallbackStep out_dir iext)
          (((searchPatterns base isn istex).foldl (modelPatternStep out_dir base isn)
            (listing, fs, [], 0)).2.1,
           ((searchPatterns base isn istex).foldl (modelPatternStep out_dir base isn)
            (listing, fs, [], 0)).2.2.1,
           ((searchPatterns base isn istex).foldl (modelPatternStep out_dir base isn)
            (listing, fs, [], 0)).2.2.2)).1.tmpLive = fs.tmpLive := by
      rw [fallback_fold_tmpLive]
      exact h1
    split <;> simpa using h2
  · rw [if_neg hA]
    split <;> simpa using h1

theorem placeModelTool_dirs (fs : Fs) (out_dir : OPath) (listing : List Entry)
    (base iext : Str) (isn istex : Bool) :
    (placeModelTool fs out_dir listing base iext isn istex).1.dirs = fs.dirs := by
  unfold placeModelTool
  dsimp only
  have h1 : (((searchPatterns base isn istex).foldl (modelPatternStep out_dir base isn)
      (listing, fs, [], 0)).2.1).dirs = fs.dirs := pattern_fold_dirs _ _ _ _ _
  by_cases hA : ((searchPatterns base isn istex).foldl (modelPatternStep out_dir base isn)
      (listing, fs, [], 0)).2.2.2 = 0
  · rw [if_pos hA]
    have h2 : ((((searchPatterns base isn istex).foldl (modelPatternStep out_dir base isn)
        (listing, fs, [], 0)).1).foldl (fallbackStep out_dir iext)
          (((searchPatterns base isn istex).foldl (modelPatternStep out_dir base isn)
            (listing, fs, [], 0)).2.1,
           ((searchPatterns base isn istex).foldl (modelPatternStep out_dir base isn)
            (listing, fs, [], 0)).2.2.1,
           ((searchPatterns base isn istex).foldl (modelPatternStep out_dir base isn)
            (listing, fs, [], 0)).2.2.2)).1.dirs = fs.dirs := by
      rw [fallback_fold_dirs]
      exact h1
    split <;> simpa using h2
  · rw [if_neg hA]
    split <;> simpa using h1

theorem placeConvertAll_tmpLive (fs : Fs) (out : OPath) (listing : List Entry)
    (iext : Str) (exts : List Str) :
    (placeConvertAll fs out listing iext exts).1.tmpLive = fs.tmpLive :=
  placeConvertAll_fold_tmpLive out iext exts listing (fs, [], 0)

theorem placeConvertAll_dirs (fs : Fs) (out : OPath) (listing : List Entry)
    (iext : Str) (exts : List Str) :
    (placeConvertAll fs out listing iext exts).1.dirs = fs.dirs :=
  placeConvertAll_fold_dirs out iext exts listing (fs, [], 0)

theorem placeTextureDump_tmpLive (fs : Fs) (out : OPath) (listing : List Entry)
    (iext : Str) :
    (placeTextureDump fs out listing iext).1.tmpLive = fs.tmpLive :=
  placeTextureDump_fold_tmpLive out iext listing (fs, [], 0)

theorem placeTextureDump_dirs (fs : Fs) (out : OPath) (listing : List Entry)
    (iext : Str) :
    (placeTextureDump fs out listing iext).1.dirs = fs.dirs :=
  placeTextureDump_fold_dirs out iext listing (fs, [], 0)

theorem classify_and_place_tmpLive (cfg : Cfg) (env : Env) (it : Item) (fs2 : Fs)
    (out : OPath) (base iext : Str) :
    (classify_and_place cfg env it fs2 out base iext).1.tmpLive = fs2.tmpLive := by
  unfold classify_and_place
  dsimp only
  split
  · split
    · rw [setTree_tmpLive, placeConvertAll_tmpLive]
    · exact placeConvertAll_tmpLive _ _ _ _ _
  · split
    · exact placeTextureDump_tmpLive _ _ _ _
    · exact placeModelTool_tmpLive _ _ _ _ _ _ _

theorem classify_and_place_dirs (cfg : Cfg) (env : Env) (it : Item) (fs2 : Fs)
    (out : OPath) (base iext : Str) :
    (classify_and_place cfg env it fs2 out base iext).1.dirs = fs2.dirs := by
  unfold classify_and_place
  dsimp only
  split
  · split
    · rw [setTree_dirs, placeConvertAll_dirs]
    · exact placeConvertAll_dirs _ _ _ _ _
  · split
    · exact placeTextureDump_dirs _ _ _ _
    · exact placeModelTool_dirs _ _ _ _ _ _ _

theorem cleanup_after_makedirs (fs : Fs) (p : OPath) (dec : Option Nat) :
    (cleanupTmp (mkdtempFs (makedirs fs p)) (makedirs fs p).nextTmp dec).tmpLive =
      (cleanupTmp (mkdtempFs fs) fs.nextTmp dec).tmpLive := by
  rw [cleanupTmp_tmpLive, cleanupTmp_tmpLive]
  cases dec <;> simp [mkdtempFs, makedirs_tmpLive, makedirs_nextTmp]

theorem cleanupTmp_tmpLive_congr (X Y : Fs) (t : Nat) (d : Option Nat)
    (h : X.tmpLive = Y.tmpLive) :
    (cleanupTmp X t d).tmpLive = (cleanupTmp Y t d).tmpLive := by
  cases d <;> simp [cleanupTmp_tmpLive, h]

theorem processAfterGz_tmpLive (cfg : Cfg) (env : Env) (fs : Fs) (it : Item)
    (exe arg w : Str) (dec : Option Nat)
    (hx : env.workFileExists = true) (hc : env.copyOk = true)
    (hr : ∀ m : Str, env.runner = RunnerResult.failed m →
      containsSub "timed out" (lowerStr m) = true) :
    (processAfterGz cfg env fs it exe arg dec w).1.tmpLive =
      (cleanupTmp (mkdtempFs fs) fs.nextTmp dec).tmpLive := by
  unfold processAfterGz
  dsimp only
  rw [if_neg (by simp [hx]), if_neg (by simp [hc])]
  by_cases hu : (containsSub "ModelTool" exe && containsSub "-o2" arg) = true
      ∧ env.userAccepts = false
  · rw [if_pos hu]
    exact cleanup_after_makedirs _ _ _
  · rw [if_neg hu]
    cases hrun : env.runner with
    | failed m =>
      dsimp only
      rw [if_pos (hr m hrun)]
      exact cleanup_after_makedirs _ _ _
    | finished rc out err =>
      dsimp only
      by_cases hrc : rc ≠ 0
      · rw [if_pos hrc]
        exact cleanup_after_makedirs _ _ _
      · rw [if_neg hrc]
        dsimp only
        calc (cleanupTmp (classify_and_place cfg env it
                (mkdtempFs (makedirs fs (out_dir_of cfg.car_name it.is_night
                  (isConvertAll cfg.tool_name)))) (out_dir_of cfg.car_name it.is_night
                  (isConvertAll cfg.tool_name)) (splitExtBase w) (extLower w)).1
              (makedirs fs (out_dir_of cfg.car_name it.is_night
                (isConvertAll cfg.tool_name))).nextTmp dec).tmpLive
            = (cleanupTmp (mkdtempFs (makedirs fs (out_dir_of cfg.car_name it.is_night
                (isConvertAll cfg.tool_name)))) (makedirs fs (out_dir_of cfg.car_name
                it.is_night (isConvertAll cfg.tool_name))).nextTmp dec).tmpLive :=
              cleanupTmp_tmpLive_congr _ _ _ _ (classify_and_place_tmpLive _ _ _ _ _ _ _)
          _ = (cleanupTmp (mkdtempFs fs) fs.nextTmp dec).tmpLive :=
              cleanup_after_makedirs _ _ _

theorem single_fresh_filter (l : List Nat) (n : Nat) (h : ∀ i ∈ l, i < n) :
    (l ++ [n]).filter (fun j => decide (j ≠ n)) = l := by
  rw [List.filter_append, filter_ne_of_lt l n h n (le_refl n)]
  simp

theorem double_fresh_filter (l : List Nat) (n : Nat) (h : ∀ i ∈ l, i < n) :
    ((((l ++ [n]) ++ [n + 1]).filter (fun j => decide (j ≠ n + 1))).filter
        (fun j => decide (j ≠ n))) = l := by
  have h1 : ((l ++ [n]) ++ [n + 1]).filter (fun j => decide (j ≠ n + 1)) = l ++ [n] := by
    rw [List.filter_append]
    have h2 : (l ++ [n]).filter (fun j => decide (j ≠ n + 1)) = l ++ [n] := by
      rw [List.filter_eq_self]
      intro a ha
      simp only [decide_eq_true_eq]
      rcases List.mem_append.1 ha with h3 | h3
      · have h4 := h a h3
        omega
      · simp only [List.mem_singleton] at h3
        omega
    rw [h2]
    simp
  rw [h1]
  exact single_fresh_filter l n h

theorem processAfterGz_dirs (cfg : Cfg) (env : Env) (fs : Fs) (it : Item)
    (exe arg w : Str) (dec : Option Nat) :
    (processAfterGz cfg env fs it exe arg dec w).1.dirs =
      (makedirs fs (out_dir_of cfg.car_name it.is_night (isConvertAll cfg.tool_name))).dirs := by
  unfold processAfterGz
  dsimp only
  split
  · rfl
  · split
    · rfl
    · split
      · rw [cleanupTmp_dirs]
        rfl
      · cases hrun : env.runner with
        | failed m =>
          dsimp only
          split
          · rw [cleanupTmp_dirs]
            rfl
          · rfl
        | finished rc out err =>
          dsimp only
          split
          · rw [cleanupTmp_dirs]
            rfl
          · dsimp only
            rw [cleanupTmp_dirs, classify_and_place_dirs]
            rfl

/-- C1 (amended): on every iteration that runs to a `continue` or to the end
of the body with the source present, the staging copy succeeding, any gzip
decompression succeeding, and the worker not failing with a non-timeout error
— i.e. the success, non-zero-exit, classification-mismatch, timeout and
user-declined paths — both the staging directory and any decompression
directory are removed: the set of live temporary directories is exactly what
it was before the artifact.  (The early-skip path at lines 561-563 and
exceptions reaching the outer handler skip this cleanup; see the
counterexample.) -/
theorem cleanup_on_completed_paths (cfg : Cfg) (env : Env) (fs : Fs) (it : Item)
    (hwf : FsWF fs) (hx : env.workFileExists = true) (hc : env.copyOk = true)
    (hg : env.gzWorks = true)
    (hr : ∀ m : Str, env.runner = RunnerResult.failed m →
      containsSub "timed out" (lowerStr m) = true) :
    (processOneBody cfg env fs it).1.tmpLive = fs.tmpLive := by
  unfold processOneBody
  dsimp only
  by_cases hgz : nameEndsGz it.src_file = true
  · rw [if_pos hgz, if_neg (by simp [hg])]
    rw [processAfterGz_tmpLive _ _ _ _ _ _ _ _ hx hc hr]
    rw [cleanupTmp_tmpLive]
    dsimp only [mkdtempFs]
    exact double_fresh_filter fs.tmpLive fs.nextTmp hwf
  · rw [if_neg hgz]
    rw [processAfterGz_tmpLive _ _ _ _ _ _ _ _ hx hc hr]
    rw [cleanupTmp_tmpLive]
    dsimp only [mkdtempFs]
    exact single_fresh_filter fs.tmpLive fs.nextTmp hwf

/-- C1 witness: a fully successful ConvertToEditable iteration over the empty
initial state leaves no temporary directory behind. -/
theorem cleanup_on_completed_paths_witness :
    (processOneBody ⟨.ConvertToEditable, str "Alpha"⟩ (envOk [⟨str "a.json", false, 1⟩]) fs0
        ⟨str "a.cdo", false, str "a", str "file"⟩).1.tmpLive = fs0.tmpLive :=
  cleanup_on_completed_paths _ _ _ _ (by intro i hi; simp [fs0] at hi) rfl rfl rfl
    (by intro m hm; simp [envOk] at hm)

/-- C1 counterexample: when the source file is found missing after the staging
directory has been created (lines 561-563), the iteration ends via `continue`
without removing the staging directory: temporary directory 0 is still live
after the artifact's processing, although the claim demands removal on the
early-skip path too. -/
theorem cleanup_skipped_on_missing_source :
    c1Run.1.tmpLive = [0] ∧ c1Run.2.2 = none ∧ fs0.tmpLive = [] := by decide

/-- C3 (amended): the destination directory is created (if absent) before the
run and hence before any move into it — after any iteration whose gzip stage
did not raise, the job's destination directory exists.  Moves themselves
never check the destination: an existing same-named destination file is
replaced (see the counterexample); only the night-variant `.cno` synthesis
checks existence before writing. -/
theorem dest_dir_created_before_placement (cfg : Cfg) (env : Env) (fs : Fs) (it : Item)
    (hg : env.gzWorks = true) :
    out_dir_of cfg.car_name it.is_night (isConvertAll cfg.tool_name)
      ∈ (processOneBody cfg env fs it).1.dirs := by
  unfold processOneBody
  dsimp only
  by_cases hgz : nameEndsGz it.src_file = true
  · rw [if_pos hgz, if_neg (by simp [hg])]
    rw [processAfterGz_dirs]
    exact mem_makedirs _ _
  · rw [if_neg hgz]
    rw [processAfterGz_dirs]
    exact mem_makedirs _ _

/-- C3 witness: the concrete C1-witness iteration indeed creates
`Alpha/Day`. -/
theorem dest_dir_created_before_placement_witness :
    out_dir_of (str "Alpha") false (isConvertAll .ConvertToEditable)
      ∈ (processOneBody ⟨.ConvertToEditable, str "Alpha"⟩
          (envOk [⟨str "a.json", false, 1⟩]) fs0
          ⟨str "a.cdo", false, str "a", str "file"⟩).1.dirs :=
  dest_dir_created_before_placement ⟨.ConvertToEditable, str "Alpha"⟩ _ fs0 _ rfl

/-- C3 counterexample: placement moves the newly produced `x.cdp` (content 1)
onto a destination that already holds a conflicting file `x.cdp` (content 0):
the move happens anyway and silently replaces the old file, refuting the
claim that a move only occurs when no conflicting destination file exists. -/
theorem placement_overwrites_existing_file :
    getTree c3Run.1 [str "N", str "Day", str "new"] = [⟨str "x.cdp", false, 1⟩]
    ∧ (⟨str "x.cdp", false, 0⟩ : Entry) ∈ getTree c3Fs [str "N", str "Day", str "new"]
    ∧ (⟨str "x.cdp", false, 0⟩ : Entry) ∉ getTree c3Run.1 [str "N", str "Day", str "new"]
    ∧ c3Run.2.2 = 1 := by decide

theorem processAll_logs_shift (cfg : Cfg) (jobs : List (Item × Env)) :
    ∀ (fs : Fs) (logs0 : List Str),
      jobs.foldl (processAllStep cfg) (fs, logs0) =
        ((jobs.foldl (processAllStep cfg) (fs, [])).1,
         logs0 ++ (jobs.foldl (processAllStep cfg) (fs, [])).2) := by
  induction jobs with
  | nil => intro fs logs0; simp
  | cons j js ih =>
    intro fs logs0
    rw [List.foldl_cons, List.foldl_cons]
    have hstep : ∀ L : List Str, processAllStep cfg (fs, L) j =
        ((processAllStep cfg (fs, []) j).1, L ++ (processAllStep cfg (fs, []) j).2) := by
      intro L
      unfold processAllStep
      dsimp only
      rcases hres : (processOneBody cfg j.2 fs j.1).2.2 with _ | e <;> simp [hres]
    rw [hstep logs0]
    rw [ih ((processAllStep cfg (fs, []) j).1) (logs0 ++ (processAllStep cfg (fs, []) j).2)]
    conv_rhs => rw [show processAllStep cfg (fs, []) j =
      ((processAllStep cfg (fs, []) j).1, (processAllStep cfg (fs, []) j).2) from rfl]
    rw [ih ((processAllStep cfg (fs, []) j).1) ((processAllStep cfg (fs, []) j).2)]
    simp [List.append_assoc]

/-- C4: when the processing of one artifact raises (worker failure re-raised
at line 676, or a gzip failure), the per-artifact handler at lines 847-848
catches it, appends exactly one log line that contains the entity id, keeps
the partially modified filesystem state, and the loop processes the remaining
artifacts exactly as it would have from that state — the batch function is
total and a single artifact's failure never aborts it. -/
theorem batch_isolates_item_exception (cfg : Cfg) (fs fs1 : Fs) (it : Item) (env : Env)
    (rest : List (Item × Env)) (l : List Str) (e : Str)
    (h : processOneBody cfg env fs it = (fs1, l, some e)) :
    processAll cfg fs ((it, env) :: rest) =
      ((processAll cfg fs1 rest).1,
       l ++ [excLog it.carid e] ++ (processAll cfg fs1 rest).2)
    ∧ it.carid <:+: excLog it.carid e := by
  constructor
  · unfold processAll
    rw [List.foldl_cons]
    have hstep : processAllStep cfg (fs, []) (it, env) = (fs1, l ++ [excLog it.carid e]) := by
      simp [processAllStep, h]
    rw [hstep]
    rw [processAll_logs_shift cfg rest fs1 (l ++ [excLog it.carid e])]
  · exact ⟨str "Exception processing ", str ": " ++ e, by simp [excLog]⟩

/-- C4 witness: the launch failure of the only job is caught and logged with
the entity id `a`. -/
theorem batch_isolates_item_exception_witness :
    processAll ⟨.ConvertToEditable, str "Alpha"⟩ fs0
        [(⟨str "a.cdo", false, str "a", str "file"⟩, c4env)] =
      ((processAll ⟨.ConvertToEditable, str "Alpha"⟩ c4fs1 []).1,
       c4logs ++ [excLog (str "a") (str "boom")]
         ++ (processAll ⟨.ConvertToEditable, str "Alpha"⟩ c4fs1 []).2)
    ∧ (str "a") <:+: excLog (str "a") (str "boom") :=
  batch_isolates_item_exception ⟨.ConvertToEditable, str "Alpha"⟩ fs0 c4fs1
    ⟨str "a.cdo", false, str "a", str "file"⟩ c4env [] c4logs (str "boom") (by decide)

theorem modelExtStep_noop (out_dir : OPath) (base : Str) (isn : Bool) (pat : Str)
    (st : List Entry × Fs × List Str × Nat) (ext : Str)
    (h : st.1.find? (fun e => decide (e.name = pat ++ ext) && !e.isDir) = none) :
    modelExtStep out_dir base isn pat st ext = st := by
  unfold modelExtStep
  dsimp only
  rw [h]

theorem foldl_modelExtStep_noop (out_dir : OPath) (base : Str) (isn : Bool) (pat : Str) :
    ∀ (L : List Str) (st : List Entry × Fs × List Str × Nat),
      (∀ ext ∈ L, st.1.find? (fun e => decide (e.name = pat ++ ext) && !e.isDir) = none) →
      L.foldl (modelExtStep out_dir base isn pat) st = st := by
  intro L
  induction L with
  | nil => intro st _; rfl
  | cons x xs ih =>
    intro st h
    rw [List.foldl_cons, modelExtStep_noop _ _ _ _ _ _ (h x (List.mem_cons_self x xs))]
    exact ih st (fun e he => h e (List.mem_cons_of_mem x he))

theorem foldl_modelPatternStep_noop (out_dir : OPath) (base : Str) (isn : Bool)
    (P : List Str) (st : List Entry × Fs × List Str × Nat)
    (h : ∀ pat ∈ P, ∀ ext ∈ modelToolExts,
      st.1.find? (fun e => decide (e.name = pat ++ ext) && !e.isDir) = none) :
    P.foldl (modelPatternStep out_dir base isn) st = st := by
  induction P with
  | nil => rfl
  | cons x xs ih =>
    rw [List.foldl_cons]
    have hx : modelPatternStep out_dir base isn st x = st := by
      unfold modelPatternStep
      exact foldl_modelExtStep_noop _ _ _ _ _ _ (h x (List.mem_cons_self x xs))
    rw [hx]
    exact ih (fun pat hp ext he => h pat (List.mem_cons_of_mem x hp) ext he)

theorem getTree_setTree (fs : Fs) (p : OPath) (t : List Entry) :
    getTree (setTree fs p t) p = t := by
  unfold getTree setTree
  dsimp only
  have h := find?_middle (fun kv : OPath × List Entry => decide (kv.1 = p))
    (fs.outTrees.filter (fun kv => decide (kv.1 ≠ p))) [] (p, t)
    (by
      intro g hg
      have h2 := (List.mem_filter.1 hg).2
      simp only [decide_eq_true_eq] at h2
      simpa using h2)
    (by simp)
  rw [h]
  rfl

theorem mem_getTree_moveIntoOut_self (fs : Fs) (p : OPath) (e : Entry) :
    e ∈ getTree (moveIntoOut fs p e) p := by
  unfold moveIntoOut
  rw [getTree_setTree]
  exact List.mem_append_right _ (List.mem_cons_self _ _)

theorem mem_getTree_moveIntoOut_ne (fs : Fs) (p : OPath) (x e : Entry)
    (hne : e.name ≠ x.name) (hf : e ∈ getTree fs p) :
    e ∈ getTree (moveIntoOut fs p x) p := by
  unfold moveIntoOut
  rw [getTree_setTree]
  apply List.mem_append_left
  rw [List.mem_filter]
  exact ⟨hf, by simpa using hne⟩

theorem fallback_preserve (out_dir : OPath) (iext : Str) :
    ∀ (l : List Entry) (acc : Fs × List Str × Nat) (e : Entry),
      e ∈ getTree acc.1 out_dir → e.name ∉ names l →
      e ∈ getTree (l.foldl (fallbackStep out_dir iext) acc).1 out_dir := by
  intro l
  induction l with
  | nil => intro acc e he _; exact he
  | cons x xs ih =>
    intro acc e he hn
    simp only [names, List.map_cons, List.mem_cons, not_or] at hn
    rw [List.foldl_cons]
    apply ih
    · unfold fallbackStep
      split
      · exact he
      · split
        · exact he
        · exact mem_getTree_moveIntoOut_ne _ _ _ _ hn.1 he
    · exact hn.2

theorem fallback_mem (out_dir : OPath) (iext : Str) :
    ∀ (l : List Entry) (acc : Fs × List Str × Nat),
      (names l).Nodup →
      ∀ e ∈ l, e.isDir = false → extLower e.name ≠ iext →
        e ∈ getTree (l.foldl (fallbackStep out_dir iext) acc).1 out_dir := by
  intro l
  induction l with
  | nil => intro acc _ e he; simp at he
  | cons x xs ih =>
    intro acc hnd e he hdir hext
    simp only [names, List.map_cons, List.nodup_cons] at hnd
    rw [List.foldl_cons]
    rcases List.mem_cons.1 he with rfl | hexs
    · apply fallback_preserve
      · unfold fallbackStep
        rw [if_neg (by simp [hdir]), if_neg hext]
        exact mem_getTree_moveIntoOut_self _ _ _
      · exact hnd.1
    · exact ih _ hnd.2 e hexs hdir hext

theorem fallback_count (out_dir : OPath) (iext : Str) :
    ∀ (l : List Entry) (acc : Fs × List Str × Nat),
      (l.foldl (fallbackStep out_dir iext) acc).2.2 =
        acc.2.2 + l.countP (fun e => !e.isDir && !(decide (extLower e.name = iext))) := by
  intro l
  induction l with
  | nil => intro acc; simp
  | cons x xs ih =>
    intro acc
    rw [List.foldl_cons, List.countP_cons, ih]
    by_cases h1 : x.isDir = true
    · have hs : (fallbackStep out_dir iext acc x).2.2 = acc.2.2 := by
        unfold fallbackStep
        rw [if_pos h1]
      rw [hs]
      simp [h1]
    · by_cases h2 : extLower x.name = iext
      · have hs : (fallbackStep out_dir iext acc x).2.2 = acc.2.2 := by
          unfold fallbackStep
          rw [if_neg h1, if_pos h2]
        rw [hs]
        simp [h1, h2]
      · have hs : (fallbackStep out_dir iext acc x).2.2 = acc.2.2 + 1 := by
          unfold fallbackStep
          rw [if_neg h1, if_neg h2]
        rw [hs]
        simp [h1, h2]
        omega

theorem saved_ne_warn (n : Str) : str "  Saved: " ++ n ≠ warnNoOutput := by
  intro h
  have h2 := congrArg (List.take 3) h
  rw [List.take_append_of_le_length (by decide)] at h2
  exact absurd h2 (by decide)

theorem fallback_warn_iff (out_dir : OPath) (iext : Str) :
    ∀ (l : List Entry) (acc : Fs × List Str × Nat),
      (warnNoOutput ∈ (l.foldl (fallbackStep out_dir iext) acc).2.1 ↔
        warnNoOutput ∈ acc.2.1) := by
  intro l
  induction l with
  | nil => intro acc; exact Iff.rfl
  | cons x xs ih =>
    intro acc
    rw [List.foldl_cons, ih]
    unfold fallbackStep
    split
    · exact Iff.rfl
    · split
      · exact Iff.rfl
      · constructor
        · intro hw
          rcases List.mem_append.1 hw with h | h
          · exact h
          · simp only [List.mem_singleton] at h
            exact absurd h.symm (saved_ne_warn _)
        · intro hw
          exact List.mem_append_left _ hw


/-- C9 (amended): for a file-producing model-tool run in which no
staging-directory file matches an expected pattern+extension combination, the
fallback moves every remaining file other than the input (matched by
extension) to the destination unchanged; the no-output warning, however, is
logged exactly when nothing at all was moved — that is, when every remaining
staged file is the input — not whenever the fallback runs. -/
theorem fallback_behavior_amended (fs : Fs) (out_dir : OPath) (listing : List Entry)
    (base_name input_file_ext : Str) (is_night is_texture_tool : Bool)
    (hnd : (names listing).Nodup)
    (hpat : ∀ pat ∈ searchPatterns base_name is_night is_texture_tool,
      ∀ ext ∈ modelToolExts,
        listing.find? (fun e => decide (e.name = pat ++ ext) && !e.isDir) = none) :
    (∀ e ∈ listing, e.isDir = false → extLower e.name ≠ input_file_ext →
       e ∈ getTree (placeModelTool fs out_dir listing base_name input_file_ext
             is_night is_texture_tool).1 out_dir)
    ∧ (warnNoOutput ∈ (placeModelTool fs out_dir listing base_name input_file_ext
          is_night is_texture_tool).2.1 ↔
        ∀ e ∈ listing, e.isDir = false → extLower e.name = input_file_ext) := by
  have hp : (searchPatterns base_name is_night is_texture_tool).foldl
      (modelPatternStep out_dir base_name is_night)
      ((listing, fs, [], 0) : List Entry × Fs × List Str × Nat) =
      (listing, fs, [], 0) :=
    foldl_modelPatternStep_noop out_dir base_name is_night _ _ hpat
  unfold placeModelTool
  dsimp only
  rw [hp]
  dsimp only
  rw [if_pos rfl]
  have hcnt := fallback_count out_dir input_file_ext listing (fs, [], 0)
  by_cases hc0 : listing.countP
      (fun e => !e.isDir && !(decide (extLower e.name = input_file_ext))) = 0
  · have hfbm : (listing.foldl (fallbackStep out_dir input_file_ext)
        ((fs, [], 0) : Fs × List Str × Nat)).2.2 = 0 := by
      rw [hcnt, hc0]
    rw [if_pos hfbm]
    constructor
    · intro e he hdir hext
      exfalso
      have h2 := List.countP_eq_zero.1 hc0 e he
      simp [hdir, hext] at h2
    · constructor
      · intro _ e he hdir
        have h2 := List.countP_eq_zero.1 hc0 e he
        simpa [hdir] using h2
      · intro _
        exact List.mem_append_right _ (List.mem_cons_self _ _)
  · have hfbm : ¬((listing.foldl (fallbackStep out_dir input_file_ext)
        ((fs, [], 0) : Fs × List Str × Nat)).2.2 = 0) := by
      rw [hcnt]
      omega
    rw [if_neg hfbm]
    constructor
    · intro e he hdir hext
      exact fallback_mem out_dir input_file_ext listing (fs, [], 0) hnd e he hdir hext
    · constructor
      · intro hw
        rw [fallback_warn_iff] at hw
        simp at hw
      · intro hall
        exfalso
        apply hc0
        rw [List.countP_eq_zero]
        intro a ha
        by_cases hd : a.isDir = true
        · simp [hd]
        · have h3 := hall a ha (by simpa using hd)
          simp [hd, h3]

/-- C9 counterexample: the staging directory holds only `weird.bin` (the
input `x.cdo` was consumed by the tool); no expected pattern matches, the
fallback moves the file to the destination — and no warning is logged,
refuting the claim that the fallback always logs a warning. -/
theorem fallback_moves_without_warning :
    c9Run.2.1 = [str "  Saved: " ++ str "weird.bin"]
    ∧ warnNoOutput ∉ c9Run.2.1
    ∧ c9Run.2.2 = 1
    ∧ (⟨str "weird.bin", false, 1⟩ : Entry) ∈ getTree c9Run.1 [str "N", str "Day"] := by
  decide

/-- C9 witness: one non-input staged file `out.raw` is moved by the fallback
and the warning iff-condition is settled at a concrete input. -/
theorem fallback_behavior_amended_witness :
    (∀ e ∈ [(⟨str "out.raw", false, 2⟩ : Entry)],
        e.isDir = false → extLower e.name ≠ str ".cdo" →
        e ∈ getTree (placeModelTool fs0 [str "M", str "Day"] [⟨str "out.raw", false, 2⟩]
              (str "y") (str ".cdo") false false).1 [str "M", str "Day"])
    ∧ (warnNoOutput ∈ (placeModelTool fs0 [str "M", str "Day"] [⟨str "out.raw", false, 2⟩]
          (str "y") (str ".cdo") false false).2.1 ↔
        ∀ e ∈ [(⟨str "out.raw", false, 2⟩ : Entry)],
          e.isDir = false → extLower e.name = str ".cdo") :=
  fallback_behavior_amended fs0 [str "M", str "Day"] [⟨str "out.raw", false, 2⟩]
    (str "y") (str ".cdo") false false (by decide) (by decide)

/-- C7 witness: synthesis at the concrete Night destination `[x.cdo]`, and
the no-op clause at `[y.cdo, y.cno]`. -/
theorem night_normalizer_synthesis_witness :
    ({ (⟨str "x.cdo", false, 5⟩ : Entry) with
          name := splitExtBase (str "x.cdo") ++ str ".cno" } ∈
        (nightNormalizeFull [⟨str "x.cdo", false, 5⟩]).1
      ∧ (∀ f ∈ (nightNormalizeFull [⟨str "x.cdo", false, 5⟩]).1,
          nameEndsCdo f.name = false)
      ∧ ((nightNormalizeFull [⟨str "x.cdo", false, 5⟩]).1.filter
          (fun f => gameFmt f.name)).length = 1
      ∧ (str "  Saved: " ++ (splitExtBase (str "x.cdo") ++ str ".cno"))
          ∈ (nightNormalizeFull [⟨str "x.cdo", false, 5⟩]).2.1)
    ∧ nightNormalizeFull [⟨str "y.cdo", false, 6⟩, ⟨str "y.cno", false, 7⟩] =
        ([⟨str "y.cdo", false, 6⟩, ⟨str "y.cno", false, 7⟩], [], 0) :=
  ⟨night_normalizer_synthesis.1 [⟨str "x.cdo", false, 5⟩] ⟨str "x.cdo", false, 5⟩
      (by decide) (by decide) (by decide) (by decide) (by decide),
   night_normalizer_synthesis.2 [⟨str "y.cdo", false, 6⟩, ⟨str "y.cno", false, 7⟩]
      (by decide)⟩
